import Mathlib

/-!
Verification of the Penney's Game scoring kernel and its bookkeeping
(`src/processing.py`): the single-deck scoring scan `score_deck`, the outcome
classifier `calculate_winner`, the pairwise matrix builder `play_one_deck`,
and the aggregator `sum_games`.

Decks and sequences are Python strings of symbols; we model them as `List Char`.
Python's slice `deck[i:i+3]` is `(deck.drop i).take 3`. The loop condition
`i < len(deck) - 2` is over Python's signed integers, but since `i ≥ 0` it is
equivalent to `i < deck.length - 2` with truncated `Nat` subtraction (for
`len(deck) < 2` both sides of the comparison make the condition false).
-/

namespace Penney

/-- Loop of `score_deck` (processing.py lines 33-49): while `i < len(deck) - 2`,
increment `pile`, take the window `deck[i:i+3]`, compare to `seq1` then `seq2`;
on a match award the pile, bump the trick count, reset `pile` to 2 and advance
`i` by 3; otherwise advance `i` by 1. -/
def scoreLoop (deck seq1 seq2 : List Char)
    (i pile p1_cards p2_cards p1_tricks p2_tricks : Nat) :
    Nat × Nat × Nat × Nat :=
  if h : i < deck.length - 2 then
    -- `pile += 1` precedes the comparison, so the awarded pile is `pile + 1`
    -- and the no-match branch carries `pile + 1` forward.
    if (deck.drop i).take 3 = seq1 then
      scoreLoop deck seq1 seq2 (i + 3) 2 (p1_cards + (pile + 1)) p2_cards
        (p1_tricks + 1) p2_tricks
    else if (deck.drop i).take 3 = seq2 then
      scoreLoop deck seq1 seq2 (i + 3) 2 p1_cards (p2_cards + (pile + 1))
        p1_tricks (p2_tricks + 1)
    else
      scoreLoop deck seq1 seq2 (i + 1) (pile + 1) p1_cards p2_cards
        p1_tricks p2_tricks
  else
    (p1_cards, p2_cards, p1_tricks, p2_tricks)
  termination_by deck.length - i
  decreasing_by all_goals omega

/-- `score_deck(deck, seq1, seq2)` (processing.py lines 7-51): the scan starts
at cursor `i = 0` with `pile = 2` and all card / trick counters at 0, and
returns `(p1_cards, p2_cards, p1_tricks, p2_tricks)`. -/
def score_deck (deck seq1 seq2 : List Char) : Nat × Nat × Nat × Nat :=
  scoreLoop deck seq1 seq2 0 2 0 0 0 0

/-- Structural-recursion mirror of `scoreLoop`, phrased on the suffix
`deck.drop i` of the deck: the loop guard `i < len(deck) - 2` holds exactly
when that suffix still has at least 3 symbols. It computes by kernel
reduction, unlike the well-founded `scoreLoop`. -/
def scoreList (seq1 seq2 : List Char) :
    List Char → Nat → Nat → Nat → Nat → Nat → Nat × Nat × Nat × Nat
  | a :: b :: c :: rest, pile, p1_cards, p2_cards, p1_tricks, p2_tricks =>
    if [a, b, c] = seq1 then
      scoreList seq1 seq2 rest 2 (p1_cards + (pile + 1)) p2_cards
        (p1_tricks + 1) p2_tricks
    else if [a, b, c] = seq2 then
      scoreList seq1 seq2 rest 2 p1_cards (p2_cards + (pile + 1))
        p1_tricks (p2_tricks + 1)
    else
      scoreList seq1 seq2 (b :: c :: rest) (pile + 1) p1_cards p2_cards
        p1_tricks p2_tricks
  | _, _, p1_cards, p2_cards, p1_tricks, p2_tricks =>
    (p1_cards, p2_cards, p1_tricks, p2_tricks)

theorem scoreList_short (seq1 seq2 : List Char) (l : List Char)
    (pile p1c p2c p1t p2t : Nat) (h : l.length < 3) :
    scoreList seq1 seq2 l pile p1c p2c p1t p2t = (p1c, p2c, p1t, p2t) := by
  match l with
  | [] => rfl
  | [a] => rfl
  | [a, b] => rfl
  | a :: b :: c :: rest => simp at h; omega

theorem scoreLoop_eq_scoreList (deck seq1 seq2 : List Char) :
    ∀ n i pile p1c p2c p1t p2t, deck.length - i ≤ n →
      scoreLoop deck seq1 seq2 i pile p1c p2c p1t p2t =
        scoreList seq1 seq2 (deck.drop i) pile p1c p2c p1t p2t := by
  intro n
  induction n with
  | zero =>
    intro i pile p1c p2c p1t p2t hn
    rw [scoreLoop]
    rw [dif_neg (by omega)]
    rw [scoreList_short]
    simp
    omega
  | succ n ih =>
    intro i pile p1c p2c p1t p2t hn
    by_cases h : i < deck.length - 2
    · have h3 : 3 ≤ (deck.drop i).length := by simp; omega
      match hdrop : deck.drop i with
      | [] => simp [hdrop] at h3
      | [a] => simp [hdrop] at h3
      | [a, b] => simp [hdrop] at h3
      | a :: b :: c :: rest =>
        have hwin : (deck.drop i).take 3 = [a, b, c] := by rw [hdrop]; rfl
        have hdrop1 : deck.drop (i + 1) = b :: c :: rest := by
          have : deck.drop (i + 1) = (deck.drop i).drop 1 := by
            rw [List.drop_drop]
          rw [this, hdrop]; rfl
        have hdrop3 : deck.drop (i + 3) = rest := by
          have : deck.drop (i + 3) = (deck.drop i).drop 3 := by
            rw [List.drop_drop]
          rw [this, hdrop]; rfl
        rw [scoreLoop, dif_pos h, hwin]
        unfold scoreList
        by_cases h1 : [a, b, c] = seq1
        · rw [if_pos h1, if_pos h1, ih _ _ _ _ _ _ (by omega), hdrop3]
        · rw [if_neg h1, if_neg h1]
          by_cases h2 : [a, b, c] = seq2
          · rw [if_pos h2, if_pos h2, ih _ _ _ _ _ _ (by omega), hdrop3]
          · rw [if_neg h2, if_neg h2, ih _ _ _ _ _ _ (by omega), hdrop1]
    · rw [scoreLoop, dif_neg h, scoreList_short]
      simp
      omega

theorem score_deck_eq_scoreList (deck seq1 seq2 : List Char) :
    score_deck deck seq1 seq2 = scoreList seq1 seq2 deck 2 0 0 0 0 := by
  have := scoreLoop_eq_scoreList deck seq1 seq2 deck.length 0 2 0 0 0 0
    (by omega)
  simpa [score_deck] using this

/-- `calculate_winner(p1_cards, p2_cards, p1_tricks, p2_tricks)`
(processing.py lines 54-91): all four outputs start at 0; for each metric,
if player 1's count is strictly below player 2's the winner flag is set to 1,
else if the counts are equal the draw flag is set to 1. -/
def calculate_winner (p1_cards p2_cards p1_tricks p2_tricks : Nat) :
    Nat × Nat × Nat × Nat :=
  let cw : Nat × Nat :=
    if p1_cards < p2_cards then (1, 0)
    else if p1_cards = p2_cards then (0, 1)
    else (0, 0)
  let tw : Nat × Nat :=
    if p1_tricks < p2_tricks then (1, 0)
    else if p1_tricks = p2_tricks then (0, 1)
    else (0, 0)
  (cw.1, cw.2, tw.1, tw.2)

/-- Spec-side scan loop, the refinement counterpart of `scoreLoop`, written
from the spec's words: while `i < len(deck) - 2` (over the integers, as in
Python), pile is incremented by 1, the window `deck[i:i+3]` is compared first
to `seq1` then to `seq2`; on a match the whole current pile is added to the
matching player's cards, that player's tricks increase by 1, pile resets to 2
and `i` advances by 3; on no match `i` advances by 1. -/
def specLoop (deck seq1 seq2 : List Char)
    (i pile p1_cards p2_cards p1_tricks p2_tricks : Nat) :
    Nat × Nat × Nat × Nat :=
  if h : (i : Int) < (deck.length : Int) - 2 then
    if (deck.drop i).take 3 = seq1 then
      specLoop deck seq1 seq2 (i + 3) 2 (p1_cards + (pile + 1)) p2_cards
        (p1_tricks + 1) p2_tricks
    else if (deck.drop i).take 3 = seq2 then
      specLoop deck seq1 seq2 (i + 3) 2 p1_cards (p2_cards + (pile + 1))
        p1_tricks (p2_tricks + 1)
    else
      specLoop deck seq1 seq2 (i + 1) (pile + 1) p1_cards p2_cards
        p1_tricks p2_tricks
  else
    (p1_cards, p2_cards, p1_tricks, p2_tricks)
  termination_by deck.length - i
  decreasing_by all_goals omega

/-- Spec-side scan: cursor `i` starts at 0, `pile` starts at 2, counters at 0. -/
def specScan (deck seq1 seq2 : List Char) : Nat × Nat × Nat × Nat :=
  specLoop deck seq1 seq2 0 2 0 0 0 0

theorem scoreLoop_eq_specLoop (deck seq1 seq2 : List Char) :
    ∀ n i pile p1c p2c p1t p2t, deck.length - i ≤ n →
      scoreLoop deck seq1 seq2 i pile p1c p2c p1t p2t =
        specLoop deck seq1 seq2 i pile p1c p2c p1t p2t := by
  intro n
  induction n with
  | zero =>
    intro i pile p1c p2c p1t p2t hn
    rw [scoreLoop, specLoop, dif_neg (by omega), dif_neg (by omega)]
  | succ n ih =>
    intro i pile p1c p2c p1t p2t hn
    by_cases h : i < deck.length - 2
    · rw [scoreLoop, specLoop, dif_pos h, dif_pos (by omega)]
      by_cases h1 : (deck.drop i).take 3 = seq1
      · rw [if_pos h1, if_pos h1, ih _ _ _ _ _ _ (by omega)]
      · rw [if_neg h1, if_neg h1]
        by_cases h2 : (deck.drop i).take 3 = seq2
        · rw [if_pos h2, if_pos h2, ih _ _ _ _ _ _ (by omega)]
        · rw [if_neg h2, if_neg h2, ih _ _ _ _ _ _ (by omega)]
    · rw [scoreLoop, specLoop, dif_neg h, dif_neg (by omega)]

/-- Bundle of inductive invariants of the scan loop, stated on the
structural mirror `scoreList`. Starting from state
`(l, pile, p1c, p2c, p1t, p2t)` with `2 ≤ pile` (which the loop maintains:
`pile` only ever grows or resets to 2), the final results
`(a, b, c, d) = (p1_cards, p2_cards, p1_tricks, p2_tricks)` satisfy:
card growth is bounded by consumed symbols, each trick consumes 3 symbols,
counters never decrease, each trick is awarded together with a pile of at
least 3 cards, and a player whose trick count did not grow gained no cards. -/
theorem scoreList_invariants (seq1 seq2 : List Char) :
    ∀ l pile p1c p2c p1t p2t, 2 ≤ pile →
      (scoreList seq1 seq2 l pile p1c p2c p1t p2t).1 +
          (scoreList seq1 seq2 l pile p1c p2c p1t p2t).2.1 + 2 ≤
            p1c + p2c + pile + l.length ∧
      3 * ((scoreList seq1 seq2 l pile p1c p2c p1t p2t).2.2.1 +
          (scoreList seq1 seq2 l pile p1c p2c p1t p2t).2.2.2) ≤
            3 * (p1t + p2t) + l.length ∧
      p1c ≤ (scoreList seq1 seq2 l pile p1c p2c p1t p2t).1 ∧
      p2c ≤ (scoreList seq1 seq2 l pile p1c p2c p1t p2t).2.1 ∧
      p1t ≤ (scoreList seq1 seq2 l pile p1c p2c p1t p2t).2.2.1 ∧
      p2t ≤ (scoreList seq1 seq2 l pile p1c p2c p1t p2t).2.2.2 ∧
      p1c + 3 * (scoreList seq1 seq2 l pile p1c p2c p1t p2t).2.2.1 ≤
        (scoreList seq1 seq2 l pile p1c p2c p1t p2t).1 + 3 * p1t ∧
      p2c + 3 * (scoreList seq1 seq2 l pile p1c p2c p1t p2t).2.2.2 ≤
        (scoreList seq1 seq2 l pile p1c p2c p1t p2t).2.1 + 3 * p2t ∧
      ((scoreList seq1 seq2 l pile p1c p2c p1t p2t).2.2.1 = p1t →
        (scoreList seq1 seq2 l pile p1c p2c p1t p2t).1 = p1c) ∧
      ((scoreList seq1 seq2 l pile p1c p2c p1t p2t).2.2.2 = p2t →
        (scoreList seq1 seq2 l pile p1c p2c p1t p2t).2.1 = p2c) := by
  intro l pile p1c p2c p1t p2t
  induction l, pile, p1c, p2c, p1t, p2t using scoreList.induct seq1 seq2 with
  | case1 a b c rest pile p1c p2c p1t p2t h1 ih =>
    intro hp
    have ihx := ih (by omega)
    simp only [List.length_cons] at ihx
    simp only [scoreList]
    rw [if_pos h1]
    simp only [List.length_cons]
    omega
  | case2 a b c rest pile p1c p2c p1t p2t h1 h2 ih =>
    intro hp
    have ihx := ih (by omega)
    simp only [List.length_cons] at ihx
    simp only [scoreList]
    rw [if_neg h1, if_pos h2]
    simp only [List.length_cons]
    omega
  | case3 a b c rest pile p1c p2c p1t p2t h1 h2 ih =>
    intro hp
    have ihx := ih (by omega)
    simp only [List.length_cons] at ihx
    simp only [scoreList]
    rw [if_neg h1, if_neg h2]
    simp only [List.length_cons]
    omega
  | case4 l pile p1c p2c p1t p2t h =>
    intro hp
    have hlen : l.length < 3 := by
      match l with
      | [] => simp
      | [a] => simp
      | [a, b] => simp
      | a :: b :: c :: rest => exact (h a b c rest rfl).elim
    rw [scoreList_short seq1 seq2 l pile p1c p2c p1t p2t hlen]
    simp
    omega

/-- Player 2's branch is guarded by the failure of player 1's test, so with
`seq1 = seq2` the second branch is dead code and player 2's accumulators
never change. -/
theorem scoreList_same_seq (s : List Char) :
    ∀ l pile p1c p2c p1t p2t,
      (scoreList s s l pile p1c p2c p1t p2t).2.1 = p2c ∧
      (scoreList s s l pile p1c p2c p1t p2t).2.2.2 = p2t := by
  intro l pile p1c p2c p1t p2t
  induction l, pile, p1c, p2c, p1t, p2t using scoreList.induct s s with
  | case1 a b c rest pile p1c p2c p1t p2t h1 ih =>
    simp only [scoreList]
    rw [if_pos h1]
    exact ih
  | case2 a b c rest pile p1c p2c p1t p2t h1 h2 ih =>
    exact (h1 h2).elim
  | case3 a b c rest pile p1c p2c p1t p2t h1 h2 ih =>
    simp only [scoreList]
    rw [if_neg h1, if_neg h2]
    exact ih
  | case4 l pile p1c p2c p1t p2t h =>
    have hlen : l.length < 3 := by
      match l with
      | [] => simp
      | [a] => simp
      | [a, b] => simp
      | a :: b :: c :: rest => exact (h a b c rest rfl).elim
    rw [scoreList_short s s l pile p1c p2c p1t p2t hlen]
    exact ⟨rfl, rfl⟩

/-- Fuel-indexed variant of the scan loop: runs at most `fuel` iterations and
answers `none` when the loop guard still holds after the fuel is spent.
Used to state termination of the scan as a theorem. -/
def scoreLoopFuel (deck seq1 seq2 : List Char) :
    Nat → Nat → Nat → Nat → Nat → Nat → Nat →
      Option (Nat × Nat × Nat × Nat)
  | fuel + 1, i, pile, p1_cards, p2_cards, p1_tricks, p2_tricks =>
    if i < deck.length - 2 then
      if (deck.drop i).take 3 = seq1 then
        scoreLoopFuel deck seq1 seq2 fuel (i + 3) 2 (p1_cards + (pile + 1))
          p2_cards (p1_tricks + 1) p2_tricks
      else if (deck.drop i).take 3 = seq2 then
        scoreLoopFuel deck seq1 seq2 fuel (i + 3) 2 p1_cards
          (p2_cards + (pile + 1)) p1_tricks (p2_tricks + 1)
      else
        scoreLoopFuel deck seq1 seq2 fuel (i + 1) (pile + 1) p1_cards
          p2_cards p1_tricks p2_tricks
    else
      some (p1_cards, p2_cards, p1_tricks, p2_tricks)
  | 0, i, _, p1_cards, p2_cards, p1_tricks, p2_tricks =>
    if i < deck.length - 2 then
      none
    else
      some (p1_cards, p2_cards, p1_tricks, p2_tricks)

theorem scoreLoopFuel_eq_scoreLoop (deck seq1 seq2 : List Char) :
    ∀ fuel i pile p1c p2c p1t p2t, deck.length - 2 - i ≤ fuel →
      scoreLoopFuel deck seq1 seq2 fuel i pile p1c p2c p1t p2t =
        some (scoreLoop deck seq1 seq2 i pile p1c p2c p1t p2t) := by
  intro fuel
  induction fuel with
  | zero =>
    intro i pile p1c p2c p1t p2t hf
    rw [scoreLoopFuel, scoreLoop, if_neg (by omega), dif_neg (by omega)]
  | succ fuel ih =>
    intro i pile p1c p2c p1t p2t hf
    by_cases h : i < deck.length - 2
    · rw [scoreLoopFuel, scoreLoop, if_pos h, dif_pos h]
      by_cases h1 : (deck.drop i).take 3 = seq1
      · rw [if_pos h1, if_pos h1, ih _ _ _ _ _ _ (by omega)]
      · rw [if_neg h1, if_neg h1]
        by_cases h2 : (deck.drop i).take 3 = seq2
        · rw [if_pos h2, if_pos h2, ih _ _ _ _ _ _ (by omega)]
        · rw [if_neg h2, if_neg h2, ih _ _ _ _ _ _ (by omega)]
    · rw [scoreLoopFuel, scoreLoop, if_neg h, dif_neg h]

/-- C1: for every deck string and every pair of length-3 sequences,
`score_deck` implements exactly the specified scan: cursor `i` starts at 0,
`pile` at 2; while `i < len(deck) - 2`, pile is incremented, the window
`deck[i:i+3]` is compared first to `seq1` then to `seq2`; a match awards the
whole current pile and one trick to the matching player, resets `pile` to 2
and advances `i` by 3; otherwise `i` advances by 1. Formally: `score_deck`
coincides with `specScan`, the scan transcribed from the spec's words. -/
theorem C1_score_deck_implements_spec_scan (deck seq1 seq2 : List Char) :
    score_deck deck seq1 seq2 = specScan deck seq1 seq2 :=
  scoreLoop_eq_specLoop deck seq1 seq2 deck.length 0 2 0 0 0 0 (by omega)

/-- C2 counterexample: the deck `"000"` has length 3 < 4, yet with
`seq1 = "000"`, `seq2 = "001"` the scan is not empty: the single window
matches `seq1` and `score_deck` returns `(3, 0, 1, 0)`, not `(0, 0, 0, 0)`
(the loop guard `0 < 3 - 2` holds, so the claimed empty scan range for
decks of length exactly 3 is wrong). -/
theorem C2_counterexample_length_three_deck :
    (['0', '0', '0'] : List Char).length < 4 ∧
      score_deck ['0', '0', '0'] ['0', '0', '0'] ['0', '0', '1'] =
        (3, 0, 1, 0) ∧
      score_deck ['0', '0', '0'] ['0', '0', '0'] ['0', '0', '1'] ≠
        (0, 0, 0, 0) := by
  refine ⟨by decide, ?_, ?_⟩ <;> rw [score_deck_eq_scoreList] <;> decide

/-- C2 (amended): for every deck whose length is strictly less than 3
(pattern length), and every pair of sequences, the scan range of
`score_deck` is empty and the function returns `(0, 0, 0, 0)`. (For a deck
of length exactly 3 the loop body does run once: see the counterexample.) -/
theorem C2_amended_short_deck_returns_zero (deck seq1 seq2 : List Char)
    (h : deck.length < 3) : score_deck deck seq1 seq2 = (0, 0, 0, 0) := by
  rw [score_deck_eq_scoreList]
  exact scoreList_short seq1 seq2 deck 2 0 0 0 0 h

/-- C2 witness: the amended statement applied to the concrete deck `"01"`. -/
theorem C2_witness_short_deck :
    (['0', '1'] : List Char).length < 3 ∧
      score_deck ['0', '1'] ['0', '1', '0'] ['1', '0', '1'] = (0, 0, 0, 0) :=
  ⟨by decide,
    C2_amended_short_deck_returns_zero ['0', '1'] ['0', '1', '0']
      ['1', '0', '1'] (by decide)⟩

/-- C3: for every deck `d` and sequences `(s1, s2)`, the outputs of
`score_deck` satisfy `p1_cards + p2_cards ≤ len(d)` and
`p1_tricks + p2_tricks ≤ len(d) / 3`; all four outputs are `Nat`, hence
non-negative by construction. -/
theorem C3_conservation_bounds (deck seq1 seq2 : List Char) :
    (score_deck deck seq1 seq2).1 + (score_deck deck seq1 seq2).2.1 ≤
        deck.length ∧
      (score_deck deck seq1 seq2).2.2.1 + (score_deck deck seq1 seq2).2.2.2 ≤
        deck.length / 3 := by
  rw [score_deck_eq_scoreList]
  have h := scoreList_invariants seq1 seq2 deck 2 0 0 0 0 (by omega)
  omega

/-- C4: for every deck and every length-3 sequence `s` used by both players,
every match is credited to player 1 because `seq1`'s branch is checked
first: the returned `p2_cards` and `p2_tricks` are both 0. -/
theorem C4_equal_sequences_credit_player_one (deck s : List Char) :
    (score_deck deck s s).2.1 = 0 ∧ (score_deck deck s s).2.2.2 = 0 := by
  rw [score_deck_eq_scoreList]
  exact scoreList_same_seq s deck 2 0 0 0 0

/-- C5: `calculate_winner` applies the same rule to cards and tricks
independently: the winner flag is 1 exactly when player 1's count is below
player 2's, the draw flag is 1 exactly when the counts are equal, both flags
lie in {0, 1} and are never 1 together; and
`calculate_winner 5 5 2 3 = (0, 1, 1, 0)`. -/
theorem C5_calculate_winner_classification (a b c d : Nat) :
    ((calculate_winner a b c d).1 = 1 ↔ a < b) ∧
      ((calculate_winner a b c d).2.1 = 1 ↔ a = b) ∧
      ((calculate_winner a b c d).1 = 0 ∨ (calculate_winner a b c d).1 = 1) ∧
      ((calculate_winner a b c d).2.1 = 0 ∨
        (calculate_winner a b c d).2.1 = 1) ∧
      ¬((calculate_winner a b c d).1 = 1 ∧ (calculate_winner a b c d).2.1 = 1) ∧
      ((calculate_winner a b c d).2.2.1 = 1 ↔ c < d) ∧
      ((calculate_winner a b c d).2.2.2 = 1 ↔ c = d) ∧
      ((calculate_winner a b c d).2.2.1 = 0 ∨
        (calculate_winner a b c d).2.2.1 = 1) ∧
      ((calculate_winner a b c d).2.2.2 = 0 ∨
        (calculate_winner a b c d).2.2.2 = 1) ∧
      ¬((calculate_winner a b c d).2.2.1 = 1 ∧
        (calculate_winner a b c d).2.2.2 = 1) ∧
      calculate_winner 5 5 2 3 = (0, 1, 1, 0) := by
  unfold calculate_winner
  split_ifs <;> simp_all <;> omega

/-- C6: for deck `"0101010101"` (length 10), `seq1 = "010"`,
`seq2 = "101"`: the first window at `i = 0` equals `seq1`, the first loop
step awards pile 3 and one trick to player 1 and jumps the cursor to 3, and
the completed scan returns `(6, 3, 2, 1)`. -/
theorem C6_alternating_deck_trace :
    (((['0', '1', '0', '1', '0', '1', '0', '1', '0', '1'] : List Char).drop
          0).take 3 = ['0', '1', '0']) ∧
      scoreLoop ['0', '1', '0', '1', '0', '1', '0', '1', '0', '1']
          ['0', '1', '0'] ['1', '0', '1'] 0 2 0 0 0 0 =
        scoreLoop ['0', '1', '0', '1', '0', '1', '0', '1', '0', '1']
          ['0', '1', '0'] ['1', '0', '1'] 3 2 3 0 1 0 ∧
      score_deck ['0', '1', '0', '1', '0', '1', '0', '1', '0', '1']
          ['0', '1', '0'] ['1', '0', '1'] = (6, 3, 2, 1) := by
  refine ⟨by decide, ?_, ?_⟩
  · rw [scoreLoop_eq_scoreList _ _ _ 10 0 2 0 0 0 0 (by decide),
      scoreLoop_eq_scoreList _ _ _ 10 3 2 3 0 1 0 (by decide)]
    decide
  · rw [score_deck_eq_scoreList]
    decide

/-- C7: the scan of `score_deck` terminates on every input: since the cursor
strictly increases each iteration (by 1 or by 3) against a fixed bound, the
fuel-indexed loop `scoreLoopFuel` already completes (returns `some`) with any
fuel of at least `len(deck)` iterations, and its value is `score_deck`'s. -/
theorem C7_scan_terminates_within_deck_length_fuel
    (deck seq1 seq2 : List Char) (fuel : Nat) (h : deck.length ≤ fuel) :
    scoreLoopFuel deck seq1 seq2 fuel 0 2 0 0 0 0 =
      some (score_deck deck seq1 seq2) :=
  scoreLoopFuel_eq_scoreLoop deck seq1 seq2 fuel 0 2 0 0 0 0 (by omega)

/-- C7 witness: termination applied to the concrete deck `"01011"` with fuel
5. -/
theorem C7_witness_fuel :
    (['0', '1', '0', '1', '1'] : List Char).length ≤ 5 ∧
      scoreLoopFuel ['0', '1', '0', '1', '1'] ['0', '1', '0'] ['1', '0', '1']
          5 0 2 0 0 0 0 =
        some (score_deck ['0', '1', '0', '1', '1'] ['0', '1', '0']
          ['1', '0', '1']) :=
  ⟨by decide,
    C7_scan_terminates_within_deck_length_fuel ['0', '1', '0', '1', '1']
      ['0', '1', '0'] ['1', '0', '1'] 5 (by decide)⟩

/-- Alphabet of player choices, `sequences` in `play_one_deck`
(processing.py line 109): all binary strings of length 3 in lexicographic
order. -/
def sequences : List (List Char) :=
  [['0', '0', '0'], ['0', '0', '1'], ['0', '1', '0'], ['0', '1', '1'],
   ['1', '0', '0'], ['1', '0', '1'], ['1', '1', '0'], ['1', '1', '1']]

/-- `itertools.product(sequences, repeat=2)` (line 110): the 64 ordered
pairs of choices, row-major. -/
def combinations : List (List Char × List Char) := sequences.product sequences

/-- `sequences[::-1]` (line 128). -/
def reversed_sequences : List (List Char) := sequences.reverse

/-- An empty result frame, `pd.DataFrame(columns=sequences, index=sequences)`
(lines 111-114): every cell starts unpopulated (pandas `NaN`, modelled as
`none`), and a cell is addressed by its row label `seq1` and column label
`seq2`. -/
def emptyFrame : List Char → List Char → Option Nat := fun _ _ => none

/-- One assignment `frame.at[seq1, seq2] = v` (lines 120-123). -/
def setCell (f : List Char → List Char → Option Nat) (r c : List Char)
    (v : Nat) : List Char → List Char → Option Nat :=
  fun r' c' => if r' = r ∧ c' = c then some v else f r' c'

/-- The classifier applied to a deck's score for one pair of choices
(lines 117-118). -/
def outcomes (deck s1 s2 : List Char) : Nat × Nat × Nat × Nat :=
  calculate_winner (score_deck deck s1 s2).1 (score_deck deck s1 s2).2.1
    (score_deck deck s1 s2).2.2.1 (score_deck deck s1 s2).2.2.2

/-- The `for seq1, seq2 in combinations` loop of `play_one_deck`
(lines 116-123), for one of the four frames: each visited pair gets the
scalar `g seq1 seq2` written into its cell. -/
def fillFrame (g : List Char → List Char → Nat) :
    List Char → List Char → Option Nat :=
  combinations.foldl (fun f p => setCell f p.1 p.2 (g p.1 p.2)) emptyFrame

/-- A frame seen as rows, after `loc[reversed_sequences, :]` (lines 128-132):
the row axis follows `reversed_sequences`, the column axis `sequences`. -/
def presentRows (f : List Char → List Char → Option Nat) :
    List (List (Option Nat)) :=
  reversed_sequences.map fun s1 => sequences.map fun s2 => f s1 s2

/-- `play_one_deck(deck)` (lines 94-143), result part: the four matrices
`(p2_wins_cards, p2_wins_tricks, draws_cards, draws_tricks)` holding the
classifier's `cards_winner`, `tricks_winner`, `cards_draw`, `tricks_draw`
respectively, with rows reordered by `reversed_sequences`. The `.npy`
persistence of the non-batched mode is outside the model. -/
def play_one_deck (deck : List Char) :
    List (List (Option Nat)) × List (List (Option Nat)) ×
      List (List (Option Nat)) × List (List (Option Nat)) :=
  (presentRows (fillFrame fun s1 s2 => (outcomes deck s1 s2).1),
   presentRows (fillFrame fun s1 s2 => (outcomes deck s1 s2).2.2.1),
   presentRows (fillFrame fun s1 s2 => (outcomes deck s1 s2).2.1),
   presentRows (fillFrame fun s1 s2 => (outcomes deck s1 s2).2.2.2))

theorem foldl_setCell_preserved (g : List Char → List Char → Nat)
    (s1 s2 : List Char) :
    ∀ (ps : List (List Char × List Char)) f, f s1 s2 = some (g s1 s2) →
      (ps.foldl (fun f p => setCell f p.1 p.2 (g p.1 p.2)) f) s1 s2 =
        some (g s1 s2) := by
  intro ps
  induction ps with
  | nil => intro f h; exact h
  | cons p rest ih =>
    intro f h
    rw [List.foldl_cons]
    apply ih
    simp only [setCell]
    by_cases hc : s1 = p.1 ∧ s2 = p.2
    · rw [if_pos hc, hc.1, hc.2]
    · rw [if_neg hc]; exact h

theorem foldl_setCell_mem (g : List Char → List Char → Nat)
    (s1 s2 : List Char) :
    ∀ (ps : List (List Char × List Char)) f, (s1, s2) ∈ ps →
      (ps.foldl (fun f p => setCell f p.1 p.2 (g p.1 p.2)) f) s1 s2 =
        some (g s1 s2) := by
  intro ps
  induction ps with
  | nil => intro f h; simp at h
  | cons p rest ih =>
    intro f h
    rw [List.foldl_cons]
    rcases List.mem_cons.mp h with heq | hmem
    · apply foldl_setCell_preserved
      rw [← heq]
      simp [setCell]
    · exact ih _ hmem

/-- Every (seq1, seq2) pair of the alphabet gets its cell populated by the
fill loop, with the scalar produced for that pair. -/
theorem fillFrame_populated (g : List Char → List Char → Nat)
    (s1 s2 : List Char) (h1 : s1 ∈ sequences) (h2 : s2 ∈ sequences) :
    fillFrame g s1 s2 = some (g s1 s2) :=
  foldl_setCell_mem g s1 s2 combinations emptyFrame
    (List.pair_mem_product.mpr ⟨h1, h2⟩)

theorem presentRows_get (f : List Char → List Char → Option Nat)
    (g : List Char → List Char → Nat)
    (hf : ∀ s1 s2, s1 ∈ sequences → s2 ∈ sequences → f s1 s2 = some (g s1 s2))
    (i : Fin 8) :
    ∃ s1, reversed_sequences[(↑i : Nat)]? = some s1 ∧
      (presentRows f)[(↑i : Nat)]? =
        some (sequences.map fun s2 => some (g s1 s2)) := by
  have hlen : (↑i : Nat) < reversed_sequences.length := by
    simp [reversed_sequences, sequences]
  refine ⟨reversed_sequences[(↑i : Nat)],
    (List.getElem?_eq_some_getElem_iff _ _ hlen).mpr trivial, ?_⟩
  have hmem : reversed_sequences[(↑i : Nat)] ∈ sequences :=
    List.mem_reverse.mp (List.getElem_mem hlen)
  rw [presentRows, List.getElem?_map,
    (List.getElem?_eq_some_getElem_iff _ _ hlen).mpr trivial]
  simp only [Option.map_some']
  congr 1
  exact List.map_eq_map_iff.mpr fun s2 h2 => hf _ s2 hmem h2

/-- C8: for every deck, `play_one_deck` produces four matrices, each with
exactly 8 rows and 8 columns over the binary length-3 alphabet; every one of
the 64 cells is populated (is `some _`) with the value computed from
`score_deck` and `calculate_winner` for that (seq1, seq2) pair; and the rows
follow `reversed_sequences`, so the lexicographically-last sequence `"111"`
labels row 0. -/
theorem C8_play_one_deck_matrices (deck : List Char) :
    ((play_one_deck deck).1.length = 8 ∧
      (play_one_deck deck).2.1.length = 8 ∧
      (play_one_deck deck).2.2.1.length = 8 ∧
      (play_one_deck deck).2.2.2.length = 8) ∧
    (∀ i : Fin 8,
      ((play_one_deck deck).1.getD ↑i []).length = 8 ∧
      ((play_one_deck deck).2.1.getD ↑i []).length = 8 ∧
      ((play_one_deck deck).2.2.1.getD ↑i []).length = 8 ∧
      ((play_one_deck deck).2.2.2.getD ↑i []).length = 8) ∧
    reversed_sequences[0]? = some ['1', '1', '1'] ∧
    (∀ i : Fin 8, ∃ s1, reversed_sequences[(↑i : Nat)]? = some s1 ∧
      (play_one_deck deck).1[(↑i : Nat)]? =
        some (sequences.map fun s2 => some ((outcomes deck s1 s2).1)) ∧
      (play_one_deck deck).2.1[(↑i : Nat)]? =
        some (sequences.map fun s2 => some ((outcomes deck s1 s2).2.2.1)) ∧
      (play_one_deck deck).2.2.1[(↑i : Nat)]? =
        some (sequences.map fun s2 => some ((outcomes deck s1 s2).2.1)) ∧
      (play_one_deck deck).2.2.2[(↑i : Nat)]? =
        some (sequences.map fun s2 => some ((outcomes deck s1 s2).2.2.2))) := by
  refine ⟨?_, ?_, by decide, ?_⟩
  · simp [play_one_deck, presentRows, reversed_sequences, sequences]
  · intro i
    fin_cases i <;>
      simp [play_one_deck, presentRows, reversed_sequences, sequences]
  · intro i
    obtain ⟨s1, hs1, hrow1⟩ := presentRows_get _ _
      (fun s1 s2 h1 h2 => fillFrame_populated
        (fun s1 s2 => (outcomes deck s1 s2).1) s1 s2 h1 h2) i
    obtain ⟨s1b, hs1b, hrow2⟩ := presentRows_get _ _
      (fun s1 s2 h1 h2 => fillFrame_populated
        (fun s1 s2 => (outcomes deck s1 s2).2.2.1) s1 s2 h1 h2) i
    obtain ⟨s1c, hs1c, hrow3⟩ := presentRows_get _ _
      (fun s1 s2 h1 h2 => fillFrame_populated
        (fun s1 s2 => (outcomes deck s1 s2).2.1) s1 s2 h1 h2) i
    obtain ⟨s1d, hs1d, hrow4⟩ := presentRows_get _ _
      (fun s1 s2 h1 h2 => fillFrame_populated
        (fun s1 s2 => (outcomes deck s1 s2).2.2.2) s1 s2 h1 h2) i
    have hb : s1b = s1 := by rw [hs1] at hs1b; exact (Option.some.inj hs1b).symm
    have hc : s1c = s1 := by rw [hs1] at hs1c; exact (Option.some.inj hs1c).symm
    have hd : s1d = s1 := by rw [hs1] at hs1d; exact (Option.some.inj hs1d).symm
    rw [hb] at hrow2
    rw [hc] at hrow3
    rw [hd] at hrow4
    exact ⟨s1, hs1, hrow1, hrow2, hrow3, hrow4⟩

/-- Element-wise sum of two matrices, `games_total += game`
(processing.py line 186). -/
def matAdd (A B : List (List ℚ)) : List (List ℚ) :=
  List.zipWith (List.zipWith (· + ·)) A B

/-- Element-wise division, `np.divide(games_total, num_games)` (line 192). -/
def matDivide (A : List (List ℚ)) (n : ℚ) : List (List ℚ) :=
  A.map fun r => r.map fun x => x / n

/-- `sum_games(data, average, batched_num_games, batched)`
(processing.py lines 164-193), with the matrices loaded from the files of
the data directory, in iteration order, modelled as the list `files`:
`games_total` starts as `None`, becomes the first file's matrix, then every
further matrix is added element-wise; `num_games` is the supplied batch size
when `batched` else the number of files; if `average`, every element of the
total is divided by `num_games`. -/
def sum_games (files : List (List (List ℚ))) (average : Bool)
    (batched_num_games : Nat) (batched : Bool) :
    Option (List (List ℚ)) × Nat :=
  let games_total := files.foldl
    (fun acc game =>
      match acc with
      | none => some game
      | some t => some (matAdd t game))
    none
  let num_games := if batched then batched_num_games else files.length
  if average then
    (games_total.map fun t => matDivide t (num_games : ℚ), num_games)
  else
    (games_total, num_games)

/-- C9: the aggregator is element-wise additive: summing exactly the two
matrices `[M1, M2]` without averaging yields `matAdd M1 M2` — which agrees
cell-by-cell with `M1 + M2` — and game count 2; and averaging the single
matrix `[M]` yields `M` unchanged (every element divided by the count 1)
with game count 1. -/
theorem C9_sum_games_additivity (M1 M2 M : List (List ℚ)) (k : Nat)
    (i j : Nat) (hi : i < (matAdd M1 M2).length)
    (hj : j < ((matAdd M1 M2).getD i []).length) :
    sum_games [M1, M2] false k false = (some (matAdd M1 M2), 2) ∧
      ((matAdd M1 M2).getD i []).getD j 0 =
        ((M1.getD i []).getD j 0) + ((M2.getD i []).getD j 0) ∧
      sum_games [M] true k false = (some M, 1) := by
  refine ⟨rfl, ?_, ?_⟩
  · simp only [matAdd] at hi hj ⊢
    have hi1 : i < M1.length := by
      rw [List.length_zipWith] at hi; omega
    have hi2 : i < M2.length := by
      rw [List.length_zipWith] at hi; omega
    rw [List.getD_eq_getElem _ _ hi, List.getElem_zipWith] at hj ⊢
    rw [List.length_zipWith] at hj
    have hj1 : j < (M1[i]).length := by omega
    have hj2 : j < (M2[i]).length := by omega
    rw [List.getD_eq_getElem _ _ (by rw [List.length_zipWith]; omega),
      List.getElem_zipWith, List.getD_eq_getElem _ _ hi1,
      List.getD_eq_getElem _ _ hi2, List.getD_eq_getElem _ _ hj1,
      List.getD_eq_getElem _ _ hj2]
  · simp [sum_games, matDivide]

/-- C9 witness: the aggregator claims at the concrete matrices `[[1]]`,
`[[2]]` and `[[5]]`, with cell (0, 0). -/
theorem C9_witness_concrete :
    (0 < (matAdd [[(1 : ℚ)]] [[(2 : ℚ)]]).length ∧
      0 < ((matAdd [[(1 : ℚ)]] [[(2 : ℚ)]]).getD 0 []).length) ∧
    (sum_games [[[(1 : ℚ)]], [[(2 : ℚ)]]] false 0 false =
        (some (matAdd [[(1 : ℚ)]] [[(2 : ℚ)]]), 2) ∧
      ((matAdd [[(1 : ℚ)]] [[(2 : ℚ)]]).getD 0 []).getD 0 0 =
        (([[(1 : ℚ)]].getD 0 []).getD 0 0) +
          (([[(2 : ℚ)]].getD 0 []).getD 0 0) ∧
      sum_games [[[(5 : ℚ)]]] true 0 false = (some [[(5 : ℚ)]], 1)) :=
  ⟨⟨by decide, by decide⟩,
    C9_sum_games_additivity [[(1 : ℚ)]] [[(2 : ℚ)]] [[(5 : ℚ)]] 0 0 0
      (by decide) (by decide)⟩

/-- C10: the pile counter is at least 2 at the head of every iteration (it
starts at 2, only grows, and resets to 2 after a match), so every match
awards at least 3 cards: `p1_cards ≥ 3 * p1_tricks`,
`p2_cards ≥ 3 * p2_tricks`, and a player's card count is 0 exactly when
that player's trick count is 0. -/
theorem C10_pile_invariant_consequences (deck seq1 seq2 : List Char) :
    3 * (score_deck deck seq1 seq2).2.2.1 ≤ (score_deck deck seq1 seq2).1 ∧
      3 * (score_deck deck seq1 seq2).2.2.2 ≤
        (score_deck deck seq1 seq2).2.1 ∧
      ((score_deck deck seq1 seq2).1 = 0 ↔
        (score_deck deck seq1 seq2).2.2.1 = 0) ∧
      ((score_deck deck seq1 seq2).2.1 = 0 ↔
        (score_deck deck seq1 seq2).2.2.2 = 0) := by
  rw [score_deck_eq_scoreList]
  have h := scoreList_invariants seq1 seq2 deck 2 0 0 0 0 (by omega)
  omega

end Penney
